import Mathlib

/-
Verification of the social-network-visualizer core: the graph data model and
its mutation helpers (useNetworkData.js), the derived-metrics computations
(NetworkHealthDashboard), and the layout/rendering encodings (NetworkGraph).
JS values are embedded shallowly: ids and groups are `String`, strengths are
`Int`, coordinates and visual attributes are `ℚ`.
-/

namespace SocialNetwork

/-- A person node as stored in the data model (`initialData.js`, forms):
an object with `id`, `name`, `group` and free-text `details`. -/
structure Node where
  id : String
  name : String
  group : String
  details : String := ""
  deriving Repr, DecidableEq

/-- A link endpoint as it appears in the JS data: either a bare id string
(the canonical form produced by the forms) or an already-resolved node
object (d3's force layout substitutes node objects for ids on its working
copies, and the hook code defensively handles both shapes). -/
inductive Endpoint where
  | bare (id : String)
  | resolved (node : Node)
  deriving Repr, DecidableEq

/-- Models the JS idiom `e?.id || e` used throughout `useNetworkData.js` and
`NetworkGraph.jsx` to resolve an endpoint to an id: `some s` when the JS
expression evaluates to the string `s`, `none` when it evaluates to the
object itself (a resolved node object whose `id` is falsy, i.e. the empty
string, makes `e?.id` falsy so `||` yields the object, which then compares
unequal to every id string). -/
def Endpoint.resolveId : Endpoint → Option String
  | .bare s => some s
  | .resolved n => if n.id = "" then none else some n.id

/-- A relationship link: `source`/`target` endpoints plus an integer
`strength`; `extra` stands for any further properties the JS object may
carry, which the code's object spreads (`{ ...link, strength }`) preserve. -/
structure Link where
  source : Endpoint
  target : Endpoint
  strength : Int
  extra : String := ""
  deriving Repr, DecidableEq

/-- The in-memory graph snapshot held by `useNetworkData`: the `nodes` and
`links` React state arrays. -/
structure NetworkState where
  nodes : List Node
  links : List Link
  deriving Repr, DecidableEq

/-- Models the comparison `(l.x?.id || l.x) === y` of a resolved endpoint
against a bare id string `y`: true exactly when resolution yields `y`. -/
def Endpoint.isId (e : Endpoint) (y : String) : Bool :=
  e.resolveId = some y

/-- Models the undirected-pair test used by `addLink`, `updateLink` and
`deleteLink` in `useNetworkData.js`:
`(lS === a && lT === b) || (lS === b && lT === a)` with
`lS = l.source?.id || l.source` and `lT = l.target?.id || l.target`. -/
def Link.matchesPair (l : Link) (a b : String) : Bool :=
  (l.source.isId a && l.target.isId b) || (l.source.isId b && l.target.isId a)

/-- Mirrors `deletePerson` from `useNetworkData.js`: the reserved id `'me'`
is rejected (alert, early return, state untouched); otherwise the node with
that id is filtered out of `nodes` and every link whose resolved source or
target id equals that id is filtered out of `links`. -/
def deletePerson (id : String) (st : NetworkState) : NetworkState :=
  if id = "me" then st
  else
    { nodes := st.nodes.filter fun n => !(n.id == id)
      links := st.links.filter fun l => !(l.source.isId id) && !(l.target.isId id) }

/-- Mirrors `addLink` from `useNetworkData.js`: if some stored link already
matches the unordered pair (in either orientation, endpoints resolved via
`?.id ||`), alert and return `false` leaving the list unchanged; otherwise
append the new link (the callers pass bare string endpoints) and return
`true`. -/
def addLink (st : NetworkState) (source target : String) (strength : Int) :
    Bool × NetworkState :=
  if st.links.any fun l => l.matchesPair source target then
    (false, st)
  else
    (true, { st with
      links := st.links ++ [{ source := .bare source, target := .bare target,
                              strength := strength }] })

/-- Mirrors `updateLink` from `useNetworkData.js`: map over the links,
replacing the strength (`{ ...link, strength }`) of every link matching the
unordered pair in either orientation and leaving the rest untouched. -/
def updateLink (source target : String) (strength : Int) (st : NetworkState) :
    NetworkState :=
  { st with
    links := st.links.map fun l =>
      if l.matchesPair source target then { l with strength := strength } else l }

/-- Mirrors `deleteLink` from `useNetworkData.js`: filter out every link
matching the unordered pair in either orientation. -/
def deleteLink (source target : String) (st : NetworkState) : NetworkState :=
  { st with links := st.links.filter fun l => !(l.matchesPair source target) }

/-- Mirrors `addPerson` from `useNetworkData.js`: append the new person
(the generated or supplied id is taken as given here). -/
def addPerson (p : Node) (st : NetworkState) : NetworkState :=
  { st with nodes := st.nodes ++ [p] }

/-- The partial record of fields an edit form may pass to `updatePerson`
(spread over the existing node object). -/
structure PersonUpdates where
  name : Option String := none
  group : Option String := none
  details : Option String := none

/-- Applies a `PersonUpdates` record as the JS spread `{ ...node, ...updates }`. -/
def Node.applyUpdates (n : Node) (u : PersonUpdates) : Node :=
  { n with
    name := u.name.getD n.name
    group := u.group.getD n.group
    details := u.details.getD n.details }

/-- Mirrors `updatePerson` from `useNetworkData.js`: map over the nodes,
spreading the updates onto the node with the given id. -/
def updatePerson (id : String) (u : PersonUpdates) (st : NetworkState) :
    NetworkState :=
  { st with nodes := st.nodes.map fun n => if n.id = id then n.applyUpdates u else n }

/-- Mirrors `bulkAddPeople` from `useNetworkData.js`: for each (generated id,
name) entry append a node in the given group, and when `connectToMe` is set
also append a link `me → id` with strength `connectionStrength || 5` (the
falsy-default is modelled on the optional integer). -/
def bulkAddPeople (entries : List (String × String)) (group : String)
    (connectToMe : Bool) (connectionStrength : Option Int)
    (st : NetworkState) : NetworkState :=
  let strength := match connectionStrength with
    | none => 5
    | some v => if v = 0 then 5 else v
  let newNodes : List Node := entries.map fun e =>
    { id := e.1, name := e.2, group := group, details := "" }
  let newLinks : List Link :=
    if connectToMe then
      entries.map fun e =>
        { source := .bare "me", target := .bare e.1, strength := strength }
    else []
  { nodes := st.nodes ++ newNodes
    links := st.links ++ newLinks }

/-- Mirrors the guard of `AddLinkForm.handleSubmit`: the submission is
dropped (`if (!source || !target || source === target) return;`) unless both
ids are non-empty (truthy) and distinct; otherwise the link data is passed
to `onSubmit`. -/
def handleSubmitLink (source target : String) (strength : Int) :
    Option (String × String × Int) :=
  if source = "" ∨ target = "" ∨ source = target then none
  else some (source, target, strength)

/-- The add-link path as wired in the app shell (`handleAddLink`): the form's
submit guard followed by the hook's `addLink`; a dropped submission leaves
the state unchanged and reports failure. -/
def submitAddLink (st : NetworkState) (source target : String)
    (strength : Int) : Bool × NetworkState :=
  match handleSubmitLink source target strength with
  | none => (false, st)
  | some (s, t, k) => addLink st s t k

/-- The self node as created by the server for a fresh account
(`defaultNodes` in the server module). -/
def meNode : Node :=
  { id := "me", name := "Me", group := "me",
    details := "The center of my social universe" }

/-- The fresh-account state: only the self node, no links
(`defaultNodes` / `defaultLinks` in the server module). -/
def defaultState : NetworkState :=
  { nodes := [meNode], links := [] }

/-- A sample state used to instantiate hypothesis-bearing theorems: the self
node plus two relatives, one link stored with bare endpoints and one with a
resolved source object. -/
def sampleState : NetworkState :=
  { nodes := [meNode,
      { id := "dad", name := "Dad", group := "family" },
      { id := "mom", name := "Mom", group := "family" }]
    links := [
      { source := .bare "me", target := .bare "dad", strength := 8 },
      { source := .resolved { id := "dad", name := "Dad", group := "family" },
        target := .bare "mom", strength := 3 }] }

/-- A sample state whose single link matches no pair with ids `a`, `b`. -/
def sampleStateOther : NetworkState :=
  { nodes := [meNode]
    links := [{ source := .bare "c", target := .bare "d", strength := 5,
                extra := "note" }] }

/-- C8: deleting the reserved self id `'me'` is always rejected: the state as
a whole, and in particular the node list and the link list, are unchanged,
so the self node remains present. -/
theorem deletePerson_self_protected (st : NetworkState) :
    deletePerson "me" st = st ∧
    (deletePerson "me" st).nodes = st.nodes ∧
    (deletePerson "me" st).links = st.links := by
  refine ⟨?_, ?_, ?_⟩ <;> simp [deletePerson]

/-- C6 counterexample: at the hook level, `addLink('me','me')` on the
fresh-account state (no stored links) succeeds — it returns `true` and
appends the self-loop — refuting the claim that `addLink(a,a)` always fails. -/
theorem addLink_self_loop_cex :
    (addLink defaultState "me" "me" 5).1 = true ∧
    (addLink defaultState "me" "me" 5).2.links =
      [{ source := .bare "me", target := .bare "me", strength := 5 }] :=
  ⟨rfl, rfl⟩

/-- C6 (amended): self-loops are rejected one layer up, in
`AddLinkForm.handleSubmit`, whose guard drops any submission with
`source === target`; the submit path therefore always fails and leaves the
state unchanged, while the hook's own `addLink(a,a)` only fails when a link
over the pair `{a,a}` is already stored. -/
theorem submitAddLink_self_loop_rejected (st : NetworkState) (a : String)
    (k : Int) : submitAddLink st a a k = (false, st) := by
  simp [submitAddLink, handleSubmitLink]

/-- C7: deleting a non-self person removes the node with that id and every
link whose resolved source or target id (`l.x?.id || l.x`) is that id: the
delete cascades over the link list. -/
theorem deletePerson_cascade (st : NetworkState) (x : String) (hx : x ≠ "me") :
    (∀ n ∈ (deletePerson x st).nodes, n.id ≠ x) ∧
    (∀ l ∈ (deletePerson x st).links,
      l.source.resolveId ≠ some x ∧ l.target.resolveId ≠ some x) := by
  constructor
  · intro n hn
    simp only [deletePerson, if_neg hx, List.mem_filter] at hn
    simpa using hn.2
  · intro l hl
    simp only [deletePerson, if_neg hx, List.mem_filter] at hl
    have h := hl.2
    simp only [Endpoint.isId, Bool.and_eq_true, Bool.not_eq_true',
      decide_eq_false_iff_not] at h
    exact h

/-- C7 witness: instantiation at the sample state and the id `dad`; both
links of the sample state touch `dad` (one via a bare id, one via a resolved
object), so the cascade removes them. -/
theorem deletePerson_cascade_witness :
    (∀ n ∈ (deletePerson "dad" sampleState).nodes, n.id ≠ "dad") ∧
    (∀ l ∈ (deletePerson "dad" sampleState).links,
      l.source.resolveId ≠ some "dad" ∧ l.target.resolveId ≠ some "dad") :=
  deletePerson_cascade sampleState "dad" (by decide)

/-- C10: `updateLink(source, target, strength)` never touches the node list;
it maps the link list pointwise, rewriting exactly the strength field of each
link matching the unordered pair in either orientation (endpoints, resolved
or bare, and all other fields are preserved by the spread) and leaving
non-matching links identical; when no stored link matches, the link list is
unchanged. -/
theorem updateLink_frame (st : NetworkState) (source target : String)
    (k : Int) :
    (updateLink source target k st).nodes = st.nodes ∧
    List.Forall₂ (fun l' l =>
        (l.matchesPair source target = true →
          l'.source = l.source ∧ l'.target = l.target ∧ l'.extra = l.extra ∧
          l'.strength = k) ∧
        (l.matchesPair source target = false → l' = l))
      (updateLink source target k st).links st.links ∧
    ((∀ l ∈ st.links, l.matchesPair source target = false) →
      (updateLink source target k st).links = st.links) := by
  refine ⟨rfl, ?_, ?_⟩
  · simp only [updateLink]
    rw [List.forall₂_map_left_iff, List.forall₂_same]
    intro l _
    by_cases h : l.matchesPair source target <;> simp [h]
  · intro hnone
    simp only [updateLink]
    conv_rhs => rw [← List.map_id st.links]
    exact List.map_congr_left fun l hl => by simp [hnone l hl]

/-- C10 witness: instantiation at a state whose single stored link does not
match the pair `{a,b}`, so the node list and the link list are unchanged. -/
theorem updateLink_frame_witness :
    (updateLink "a" "b" 9 sampleStateOther).nodes = sampleStateOther.nodes ∧
    (updateLink "a" "b" 9 sampleStateOther).links = sampleStateOther.links :=
  ⟨(updateLink_frame sampleStateOther "a" "b" 9).1,
   (updateLink_frame sampleStateOther "a" "b" 9).2.2 (by decide)⟩

/-- Models `toFixed(1)` applied to an exact rational value: rounding to the
nearest tenth (the dashboard's arithmetic is done on IEEE doubles; on the
small integer-derived ratios involved here the exact-rational rounding
agrees). -/
def toFixed1 (q : ℚ) : ℚ := ((round (q * 10) : ℤ) : ℚ) / 10

/-- Mirrors the network-density computation of `NetworkHealthDashboard`:
`maxPossibleConnections = nodes.length * (nodes.length - 1) / 2`, and the
density is `(totalConnections / maxPossibleConnections * 100).toFixed(1)`
when `maxPossibleConnections > 0` and `0` otherwise. -/
def density (st : NetworkState) : ℚ :=
  let n : ℚ := st.nodes.length
  let maxPossibleConnections : ℚ := n * (n - 1) / 2
  if 0 < maxPossibleConnections then
    toFixed1 ((st.links.length : ℚ) / maxPossibleConnections * 100)
  else 0

/-- C2: the reported network density is `linkCount / (n * (n-1) / 2)` as a
percentage rounded to one decimal place, where `n` is the total node count
including the self node; it is `0` when there are fewer than 2 nodes; and
for 5 nodes and 4 links it is exactly `40.0`. -/
theorem density_spec (st : NetworkState) :
    (st.nodes.length < 2 → density st = 0) ∧
    (2 ≤ st.nodes.length → density st =
      toFixed1 ((st.links.length : ℚ) /
        ((st.nodes.length : ℚ) * ((st.nodes.length : ℚ) - 1) / 2) * 100)) ∧
    (st.nodes.length = 5 → st.links.length = 4 → density st = 40) := by
  refine ⟨?_, ?_, ?_⟩
  · intro h
    have h01 : st.nodes.length = 0 ∨ st.nodes.length = 1 := by omega
    rcases h01 with h0 | h1
    · simp [density, h0]
    · simp [density, h1]
  · intro h
    have hq : (2 : ℚ) ≤ (st.nodes.length : ℚ) := by exact_mod_cast h
    have hpos : 0 < (st.nodes.length : ℚ) * ((st.nodes.length : ℚ) - 1) / 2 := by
      nlinarith
    simp only [density, if_pos hpos]
  · intro h5 h4
    have : ((40 : ℚ) * 10) = ((400 : ℤ) : ℚ) := by norm_num
    simp only [density, h5, h4]
    norm_num [toFixed1, this, round_intCast]

/-- C2 witness: the sample 5-node, 4-link snapshot from the spec. -/
def fiveFourState : NetworkState :=
  { nodes := [meNode,
      { id := "a", name := "A", group := "friends" },
      { id := "b", name := "B", group := "friends" },
      { id := "c", name := "C", group := "work" },
      { id := "d", name := "D", group := "work" }]
    links := [
      { source := .bare "me", target := .bare "a", strength := 5 },
      { source := .bare "me", target := .bare "b", strength := 6 },
      { source := .bare "a", target := .bare "c", strength := 4 },
      { source := .bare "b", target := .bare "d", strength := 7 }] }

/-- C2 witness: on the concrete 5-node, 4-link snapshot the density is `40`. -/
theorem density_spec_witness : density fiveFourState = 40 :=
  (density_spec fiveFourState).2.2 (by decide) (by decide)

/-- The five strength-band counters of the dashboard. -/
structure StrengthBuckets where
  veryStrong : Nat
  strong : Nat
  moderate : Nat
  weak : Nat
  veryWeak : Nat
  deriving Repr, DecidableEq

/-- Mirrors `stats.strengthBuckets` of `NetworkHealthDashboard`: five filters
over the link list, counting `strength >= 8`, `6 <= strength < 8`,
`4 <= strength < 6`, `2 <= strength < 4`, and `strength < 2`. -/
def strengthBuckets (links : List Link) : StrengthBuckets :=
  { veryStrong := (links.filter fun l => decide (8 ≤ l.strength)).length
    strong := (links.filter fun l =>
      decide (6 ≤ l.strength) && decide (l.strength < 8)).length
    moderate := (links.filter fun l =>
      decide (4 ≤ l.strength) && decide (l.strength < 6)).length
    weak := (links.filter fun l =>
      decide (2 ≤ l.strength) && decide (l.strength < 4)).length
    veryWeak := (links.filter fun l => decide (l.strength < 2)).length }

/-- Helper: the five band counters always sum to the number of links, since
the bands `(-inf,2)`, `[2,4)`, `[4,6)`, `[6,8)`, `[8,inf)` tile the integers. -/
theorem strengthBuckets_sum (links : List Link) :
    (strengthBuckets links).veryStrong + (strengthBuckets links).strong +
    (strengthBuckets links).moderate + (strengthBuckets links).weak +
    (strengthBuckets links).veryWeak = links.length := by
  induction links with
  | nil => rfl
  | cons l ls ih =>
    simp only [strengthBuckets] at ih ⊢
    have key : ∀ p : Link → Bool, (List.filter p (l :: ls)).length =
        (if p l = true then 1 else 0) + (List.filter p ls).length := by
      intro p
      by_cases hp : p l <;> simp [List.filter_cons, hp] <;> omega
    rw [key, key, key, key, key, List.length_cons]
    simp only [Bool.and_eq_true, decide_eq_true_eq]
    split_ifs <;> omega

/-- C4: for a link list whose strengths are integers in `[1,10]`, the bucket
computation partitions the links into the five disjoint, exhaustive bands
`[8,10]`, `[6,8)`, `[4,6)`, `[2,4)`, `[1,2)`: each band counter counts
exactly the links in its band, and the five counters sum to the link count. -/
theorem strengthBuckets_partition (links : List Link)
    (h : ∀ l ∈ links, 1 ≤ l.strength ∧ l.strength ≤ 10) :
    (strengthBuckets links).veryStrong = (links.filter fun l =>
      decide (8 ≤ l.strength) && decide (l.strength ≤ 10)).length ∧
    (strengthBuckets links).strong = (links.filter fun l =>
      decide (6 ≤ l.strength) && decide (l.strength < 8)).length ∧
    (strengthBuckets links).moderate = (links.filter fun l =>
      decide (4 ≤ l.strength) && decide (l.strength < 6)).length ∧
    (strengthBuckets links).weak = (links.filter fun l =>
      decide (2 ≤ l.strength) && decide (l.strength < 4)).length ∧
    (strengthBuckets links).veryWeak = (links.filter fun l =>
      decide (1 ≤ l.strength) && decide (l.strength < 2)).length ∧
    (strengthBuckets links).veryStrong + (strengthBuckets links).strong +
      (strengthBuckets links).moderate + (strengthBuckets links).weak +
      (strengthBuckets links).veryWeak = links.length := by
  refine ⟨?_, rfl, rfl, rfl, ?_, strengthBuckets_sum links⟩
  · simp only [strengthBuckets]
    congr 1
    apply List.filter_congr
    intro l hl
    have h10 := (h l hl).2
    simp [h10]
  · simp only [strengthBuckets]
    congr 1
    apply List.filter_congr
    intro l hl
    have h1 := (h l hl).1
    simp [h1]

/-- Concrete links with strengths `[1, 3, 5, 7, 9, 10]` from the spec's
bucket example. -/
def bucketLinks : List Link :=
  [{ source := .bare "me", target := .bare "a", strength := 1 },
   { source := .bare "me", target := .bare "b", strength := 3 },
   { source := .bare "me", target := .bare "c", strength := 5 },
   { source := .bare "me", target := .bare "d", strength := 7 },
   { source := .bare "me", target := .bare "e", strength := 9 },
   { source := .bare "me", target := .bare "f", strength := 10 }]

/-- C4 witness: on strengths `[1,3,5,7,9,10]` the partition theorem applies
and the counts are veryWeak 1, weak 1, moderate 1, strong 1, veryStrong 2. -/
theorem strengthBuckets_partition_witness :
    (∀ l ∈ bucketLinks, 1 ≤ l.strength ∧ l.strength ≤ 10) ∧
    (strengthBuckets bucketLinks).veryStrong + (strengthBuckets bucketLinks).strong +
      (strengthBuckets bucketLinks).moderate + (strengthBuckets bucketLinks).weak +
      (strengthBuckets bucketLinks).veryWeak = bucketLinks.length ∧
    strengthBuckets bucketLinks =
      { veryStrong := 2, strong := 1, moderate := 1, weak := 1, veryWeak := 1 } :=
  ⟨by decide, (strengthBuckets_partition bucketLinks (by decide)).2.2.2.2.2,
   by decide⟩

/-- Mirrors the default edge styling of `NetworkGraph`:
`stroke-opacity` is `0.5 + (d.strength / 20)`. -/
def linkStrokeOpacity (strength : Int) : ℚ := 1/2 + (strength : ℚ) / 20

/-- Mirrors the default edge styling of `NetworkGraph`:
`stroke-width` is `Math.max(1.5, d.strength / 2.5)`. -/
def linkStrokeWidth (strength : Int) : ℚ := max (3/2) ((strength : ℚ) / (5/2))

/-- C9 counterexample: strengths 1 and 2 are both rendered at the clamped
minimum stroke width `1.5`, so the greater strength does not get a strictly
greater stroke width. -/
theorem stroke_strict_monotone_cex :
    (1 : Int) < 2 ∧ linkStrokeWidth 1 = linkStrokeWidth 2 := by
  constructor
  · norm_num
  · unfold linkStrokeWidth
    rw [max_eq_left (by norm_num), max_eq_left (by norm_num)]

/-- C9 (amended): over integer strengths in `[1,10]`, the stroke opacity is
strictly increasing in strength; the stroke width is non-decreasing, and is
strictly increasing whenever the greater strength is at least 4 (strengths
1 to 3 all share the clamped minimum width `1.5`). -/
theorem stroke_monotone (s t : Int) (h1 : 1 ≤ s) (hst : s < t)
    (h10 : t ≤ 10) :
    linkStrokeOpacity s < linkStrokeOpacity t ∧
    linkStrokeWidth s ≤ linkStrokeWidth t ∧
    (4 ≤ t → linkStrokeWidth s < linkStrokeWidth t) := by
  have hsq : (s : ℚ) < (t : ℚ) := by exact_mod_cast hst
  refine ⟨?_, ?_, ?_⟩
  · unfold linkStrokeOpacity
    linarith
  · unfold linkStrokeWidth
    exact max_le_max le_rfl (by gcongr)
  · intro h4
    have htq : (4 : ℚ) ≤ (t : ℚ) := by exact_mod_cast h4
    unfold linkStrokeWidth
    have hts : (3 : ℚ)/2 ≤ (t : ℚ) / (5/2) := by
      rw [div_le_div_iff (by norm_num) (by norm_num)]
      linarith
    rw [max_eq_right hts, max_lt_iff]
    constructor
    · rw [lt_div_iff (by norm_num)]
      linarith
    · rw [div_lt_div_iff (by norm_num) (by norm_num)]
      linarith

/-- C9 witness: instantiation of the amended monotonicity at strengths 1
and 4. -/
theorem stroke_monotone_witness :
    linkStrokeOpacity 1 < linkStrokeOpacity 4 ∧
    linkStrokeWidth 1 ≤ linkStrokeWidth 4 ∧
    (4 ≤ (4 : Int) → linkStrokeWidth 1 < linkStrokeWidth 4) :=
  stroke_monotone 1 4 (by decide) (by decide) (by decide)

/-- Models JS `Array.prototype.indexOf`: the index of the first occurrence,
`-1` when the element is absent. -/
def jsIndexOf (l : List String) (s : String) : Int :=
  if s ∈ l then (l.indexOf s : Int) else -1

/-- The per-group anchor offsets of `getInitialPosition` in `NetworkGraph`.
For a custom group the source computes `angle = (idx + 1) * (Math.PI / 3)`
with `idx = customGroupKeys.indexOf(node.group)` and the anchor
`(Math.cos(angle) * 160, Math.sin(angle) * 160)`; that trigonometric map
from the index is irrational and is abstracted here as the injected
`customAnchor` function of the index. -/
def groupOffset (customAnchor : Int → ℚ × ℚ) (customGroupKeys : List String)
    (group : String) : ℚ × ℚ :=
  if group = "me" then (0, 0)
  else if group = "family" then (-180, -120)
  else if group = "work" then (180, -120)
  else if group = "friends" then (0, 120)
  else if group = "acquaintances" then (0, 180)
  else customAnchor (jsIndexOf customGroupKeys group)

/-- Mirrors `getInitialPosition` of `NetworkGraph`: the centered node goes to
the exact center `(width/2, height/2)`; otherwise a cached previous position
for the node's id is reused when present; otherwise the node is seeded from
its group anchor plus the per-coordinate random jitter
`(Math.random() - 0.5) * 50`, injected here as the `jitter` argument. -/
def getInitialPosition (customAnchor : Int → ℚ × ℚ)
    (customGroupKeys : List String) (centeredNodeId : String)
    (cache : List (String × (ℚ × ℚ))) (width height : ℚ)
    (jitter : ℚ × ℚ) (node : Node) : ℚ × ℚ :=
  if node.id = centeredNodeId then (width / 2, height / 2)
  else
    match cache.lookup node.id with
    | some p => p
    | none =>
      let off := groupOffset customAnchor customGroupKeys node.group
      (width / 2 + off.1 + jitter.1, height / 2 + off.2 + jitter.2)

/-- Mirrors the (re)initialization performed by the layout effect of
`NetworkGraph` on every run (the effect re-runs on every change of nodes,
links or center): it first executes `previousNodesRef.current.clear()`
unconditionally — the comment above that line says positions are cleared
when the center changes, but the call is not guarded — and then seeds every
node with `getInitialPosition` against the now-empty cache. `prevCache` is
the continuity cache populated by the `tick.store` handler of the previous
run; `jitter` supplies each node's random offsets. -/
def relayoutInit (customAnchor : Int → ℚ × ℚ) (customGroupKeys : List String)
    (centeredNodeId : String) (width height : ℚ) (jitter : String → ℚ × ℚ)
    (prevCache : List (String × (ℚ × ℚ))) (nodes : List Node) :
    List (String × (ℚ × ℚ)) :=
  let cache : List (String × (ℚ × ℚ)) := []
  nodes.map fun n =>
    (n.id, getInitialPosition customAnchor customGroupKeys centeredNodeId
      cache width height (jitter n.id) n)

/-- C3 (code bug): the layout effect clears the continuity cache on every
run, not only when the center changes, so the (re)initialization is entirely
independent of the cached positions — first conjunct — and a
previously-settled node is re-seeded from its group anchor plus jitter
instead of its cached position. Concretely (second conjunct): with an
800x600 viewport, zero jitter, center `me`, and a cache holding `dad` at
`(400, 300)` from the previous layout, re-running the effect after adding
one new unconnected node seeds `dad` at `(220, 180)` — a displacement of
180 in x — rather than at its cached position. -/
theorem layout_cache_cleared_unconditionally :
    (∀ (customAnchor : Int → ℚ × ℚ) (customGroupKeys : List String)
       (centeredNodeId : String) (width height : ℚ)
       (jitter : String → ℚ × ℚ)
       (cacheA cacheB : List (String × (ℚ × ℚ))) (nodes : List Node),
      relayoutInit customAnchor customGroupKeys centeredNodeId width height
        jitter cacheA nodes =
      relayoutInit customAnchor customGroupKeys centeredNodeId width height
        jitter cacheB nodes) ∧
    (relayoutInit (fun _ => (0, 0)) [] "me" 800 600 (fun _ => (0, 0))
        [("dad", (400, 300))]
        [meNode, { id := "dad", name := "Dad", group := "family" },
         { id := "new", name := "New", group := "friends" }]).lookup "dad" =
      some (220, 180) := by
  constructor
  · intro _ _ _ _ _ _ _ _ _
    rfl
  · simp [relayoutInit, getInitialPosition, groupOffset, meNode, List.lookup]
    norm_num [Prod.ext_iff]

/-- Models `nodes.find(n => n.id === resolvedId)` against a link endpoint:
the endpoint is resolved first (the `?.id ||` idiom), then the first node
with the resolved id is returned; an endpoint that resolves to an object
matches no node. -/
def findNodeByEnd (nodes : List Node) (e : Endpoint) : Option Node :=
  match e.resolveId with
  | none => none
  | some i => nodes.find? fun n => n.id == i

/-- Models `Set.prototype.add` on an insertion-ordered, duplicate-free
list. -/
def insertGroup (acc : List String) (g : String) : List String :=
  if g ∈ acc then acc else acc ++ [g]

/-- One iteration of the inner `links.forEach` of `bridgeData` for a fixed
node: when the link's resolved source id equals the node's id, the resolved
target node's group is added if that node exists and its group is neither
`'me'` nor the node's own group; otherwise, when the resolved target id
equals the node's id, the resolved source node's group is added under the
same conditions. -/
def bridgeStep (nodes : List Node) (node : Node) (acc : List String)
    (l : Link) : List String :=
  if l.source.resolveId = some node.id then
    match findNodeByEnd nodes l.target with
    | some tn =>
      if tn.group ≠ "me" ∧ tn.group ≠ node.group then insertGroup acc tn.group
      else acc
    | none => acc
  else if l.target.resolveId = some node.id then
    match findNodeByEnd nodes l.source with
    | some sn =>
      if sn.group ≠ "me" ∧ sn.group ≠ node.group then insertGroup acc sn.group
      else acc
    | none => acc
  else acc

/-- Mirrors the per-node foreign-group collection of `bridgeData` in
`NetworkGraph`: fold the links in input order, accumulating the set of
connected foreign groups. -/
def connectedGroups (nodes : List Node) (links : List Link) (node : Node) :
    List String :=
  links.foldl (bridgeStep nodes node) []

/-- Models `Map.prototype.set` on an association list: replace in place when
the key is present (JS Maps keep first-insertion order), append otherwise. -/
def mapSet (m : List (String × List String)) (k : String)
    (v : List String) : List (String × List String) :=
  if m.any fun p => p.1 == k then
    m.map fun p => if p.1 == k then (k, v) else p
  else m ++ [(k, v)]

/-- One iteration of the outer `nodes.forEach` of `bridgeData`: skip a node
whose group is the reserved `'me'` group, otherwise compute its connected
foreign groups and record it in the bridge map exactly when that set is
non-empty (`connectedGroups.size > 0`). -/
def bridgeAccum (nodes : List Node) (links : List Link)
    (bridges : List (String × List String)) (node : Node) :
    List (String × List String) :=
  if node.group = "me" then bridges
  else
    let cg := connectedGroups nodes links node
    if cg.isEmpty then bridges else mapSet bridges node.id cg

/-- Mirrors `bridgeData` of `NetworkGraph`: fold the outer `nodes.forEach`
over an initially empty map. -/
def bridgeData (nodes : List Node) (links : List Link) :
    List (String × List String) :=
  nodes.foldl (bridgeAccum nodes links) []

/-- A link directly joins nodes `v` and `u` when its endpoints resolve to
their ids, in one orientation or the other. -/
def Link.joins (l : Link) (v u : Node) : Prop :=
  (l.source.resolveId = some v.id ∧ l.target.resolveId = some u.id) ∨
  (l.source.resolveId = some u.id ∧ l.target.resolveId = some v.id)

/-- The exact condition under which `bridgeStep` on link `l` contributes the
group `g` to node `v`'s set, following the source's `if / else if`
structure. -/
def Contrib (nodes : List Node) (v : Node) (l : Link) (g : String) : Prop :=
  g ≠ "me" ∧ g ≠ v.group ∧
  ((l.source.resolveId = some v.id ∧
      ∃ u, findNodeByEnd nodes l.target = some u ∧ u.group = g) ∨
   (l.source.resolveId ≠ some v.id ∧ l.target.resolveId = some v.id ∧
      ∃ u, findNodeByEnd nodes l.source = some u ∧ u.group = g))

/-- Helper: membership in a `Set.add`. -/
theorem mem_insertGroup (acc : List String) (h g : String) :
    g ∈ insertGroup acc h ↔ g ∈ acc ∨ g = h := by
  unfold insertGroup
  split_ifs with hmem
  · constructor
    · exact Or.inl
    · rintro (hg | rfl) <;> assumption
  · simp [or_comm]

/-- Helper: membership after one `bridgeStep`. -/
theorem mem_bridgeStep (nodes : List Node) (v : Node) (acc : List String)
    (l : Link) (g : String) :
    g ∈ bridgeStep nodes v acc l ↔ g ∈ acc ∨ Contrib nodes v l g := by
  unfold bridgeStep Contrib
  split_ifs with hsrc htgt
  · cases hfind : findNodeByEnd nodes l.target with
    | none =>
      simp only [hfind]
      constructor
      · exact Or.inl
      · rintro (hg | ⟨_, _, ⟨_, ⟨u, hu, _⟩⟩ | ⟨habs, _, _⟩⟩)
        · exact hg
        · cases hu
        · exact absurd hsrc habs
    | some tn =>
      simp only [hfind]
      split_ifs with hcond
      · rw [mem_insertGroup]
        constructor
        · rintro (hg | rfl)
          · exact Or.inl hg
          · exact Or.inr ⟨hcond.1, hcond.2, Or.inl ⟨hsrc, tn, rfl, rfl⟩⟩
        · rintro (hg | ⟨hg1, hg2, ⟨_, ⟨u, hu, hug⟩⟩ | ⟨habs, _, _⟩⟩)
          · exact Or.inl hg
          · cases hu; exact Or.inr hug.symm
          · exact absurd hsrc habs
      · constructor
        · exact Or.inl
        · rintro (hg | ⟨hg1, hg2, ⟨_, ⟨u, hu, hug⟩⟩ | ⟨habs, _, _⟩⟩)
          · exact hg
          · cases hu
            exact absurd ⟨fun h => hg1 (hug ▸ h), fun h => hg2 (hug ▸ h)⟩ hcond
          · exact absurd hsrc habs
  · cases hfind : findNodeByEnd nodes l.source with
    | none =>
      simp only [hfind]
      constructor
      · exact Or.inl
      · rintro (hg | ⟨_, _, ⟨habs, _⟩ | ⟨_, _, ⟨u, hu, _⟩⟩⟩)
        · exact hg
        · exact absurd habs hsrc
        · cases hu
    | some sn =>
      simp only [hfind]
      split_ifs with hcond
      · rw [mem_insertGroup]
        constructor
        · rintro (hg | rfl)
          · exact Or.inl hg
          · exact Or.inr ⟨hcond.1, hcond.2, Or.inr ⟨hsrc, htgt, sn, rfl, rfl⟩⟩
        · rintro (hg | ⟨hg1, hg2, ⟨habs, _⟩ | ⟨_, _, ⟨u, hu, hug⟩⟩⟩)
          · exact Or.inl hg
          · exact absurd habs hsrc
          · cases hu; exact Or.inr hug.symm
      · constructor
        · exact Or.inl
        · rintro (hg | ⟨hg1, hg2, ⟨habs, _⟩ | ⟨_, _, ⟨u, hu, hug⟩⟩⟩)
          · exact hg
          · exact absurd habs hsrc
          · cases hu
            exact absurd ⟨fun h => hg1 (hug ▸ h), fun h => hg2 (hug ▸ h)⟩ hcond
  · constructor
    · exact Or.inl
    · rintro (hg | ⟨_, _, ⟨habs, _⟩ | ⟨_, habs, _⟩⟩)
      · exact hg
      · exact absurd habs hsrc
      · exact absurd habs htgt

/-- Helper: membership in the full fold of `bridgeStep` over the links. -/
theorem mem_bridgeStep_foldl (nodes : List Node) (v : Node)
    (links : List Link) (acc : List String) (g : String) :
    g ∈ links.foldl (bridgeStep nodes v) acc ↔
      g ∈ acc ∨ ∃ l ∈ links, Contrib nodes v l g := by
  induction links generalizing acc with
  | nil => simp
  | cons l ls ih =>
    rw [List.foldl_cons, ih, mem_bridgeStep]
    constructor
    · rintro ((hg | hc) | ⟨l', hl', hc⟩)
      · exact Or.inl hg
      · exact Or.inr ⟨l, List.mem_cons_self l ls, hc⟩
      · exact Or.inr ⟨l', List.mem_cons_of_mem l hl', hc⟩
    · rintro (hg | ⟨l', hl', hc⟩)
      · exact Or.inl (Or.inl hg)
      · rcases List.mem_cons.mp hl' with rfl | hl'
        · exact Or.inl (Or.inr hc)
        · exact Or.inr ⟨l', hl', hc⟩

/-- Helper: with duplicate-free node ids, `find?` by id retrieves exactly
the member node with that id. -/
theorem find?_by_id (nodes : List Node)
    (hnodup : (nodes.map Node.id).Nodup) (u : Node) (hu : u ∈ nodes) :
    nodes.find? (fun n => n.id == u.id) = some u := by
  induction nodes with
  | nil => cases hu
  | cons n ns ih =>
    rw [List.map_cons, List.nodup_cons] at hnodup
    by_cases h : n.id = u.id
    · have : n = u := by
        rcases List.mem_cons.mp hu with rfl | hu'
        · rfl
        · exact absurd (h ▸ List.mem_map_of_mem Node.id hu') hnodup.1
      subst this
      simp [List.find?_cons, h]
    · have hne : (n.id == u.id) = false := by simp [h]
      rw [List.find?_cons, hne]
      rcases List.mem_cons.mp hu with rfl | hu'
      · exact absurd rfl h
      · exact ih hnodup.2 hu'

/-- Helper: characterization of `findNodeByEnd` under duplicate-free ids. -/
theorem findNodeByEnd_eq_some (nodes : List Node)
    (hnodup : (nodes.map Node.id).Nodup) (e : Endpoint) (u : Node) :
    findNodeByEnd nodes e = some u ↔ u ∈ nodes ∧ e.resolveId = some u.id := by
  unfold findNodeByEnd
  cases he : e.resolveId with
  | none => simp
  | some i =>
    constructor
    · intro hfind
      have hmem := List.mem_of_find?_eq_some hfind
      have hid := List.find?_some hfind
      simp only [beq_iff_eq] at hid
      exact ⟨hmem, by rw [hid]⟩
    · rintro ⟨hmem, hid⟩
      cases hid
      exact find?_by_id nodes hnodup u hmem

/-- The per-node contribution to the bridge map, used to flatten the fold. -/
def bridgeEntry (nodes : List Node) (links : List Link) (node : Node) :
    List (String × List String) :=
  if node.group = "me" then []
  else if (connectedGroups nodes links node).isEmpty then []
  else [(node.id, connectedGroups nodes links node)]

/-- Helper: with duplicate-free ids still to be processed and an accumulator
containing none of them as keys, the bridge fold concatenates the per-node
entries onto the accumulator. -/
theorem bridgeAccum_foldl (nodes : List Node) (links : List Link)
    (ns : List Node) :
    ∀ acc : List (String × List String), (ns.map Node.id).Nodup →
      (∀ n ∈ ns, ∀ p ∈ acc, p.1 ≠ n.id) →
      ns.foldl (bridgeAccum nodes links) acc =
        acc ++ ns.flatMap (bridgeEntry nodes links) := by
  induction ns with
  | nil => intro acc _ _; simp
  | cons n ns' ih =>
    intro acc hnodup hfresh
    rw [List.map_cons, List.nodup_cons] at hnodup
    have hstep : bridgeAccum nodes links acc n =
        acc ++ bridgeEntry nodes links n := by
      unfold bridgeAccum bridgeEntry
      by_cases hg : n.group = "me"
      · simp [hg]
      · by_cases hcg : (connectedGroups nodes links n).isEmpty
        · simp [hg, hcg]
        · have hany : (acc.any fun p => p.1 == n.id) = false := by
            rw [List.any_eq_false]
            intro p hp
            simpa using hfresh n (List.mem_cons_self n ns') p hp
          simp only [hg, hcg, if_false, if_neg hg, mapSet, hany,
            Bool.false_eq_true, if_neg (by simp [hany] : ¬ (acc.any fun p => p.1 == n.id) = true)]

    rw [List.foldl_cons, hstep, ih (acc ++ bridgeEntry nodes links n)
      hnodup.2 ?_, List.flatMap_cons, List.append_assoc]
    intro m hm p hp
    rcases List.mem_append.mp hp with hpa | hpe
    · exact hfresh m (List.mem_cons_of_mem n hm) p hpa
    · have hid : p.1 = n.id := by
        unfold bridgeEntry at hpe
        split_ifs at hpe with h1 h2
        · cases hpe
        · cases hpe
        · rw [List.mem_singleton] at hpe
          rw [hpe]
      rw [hid]
      intro heq
      exact hnodup.1 (heq ▸ List.mem_map_of_mem Node.id hm)

/-- Helper: membership in the bridge map, under duplicate-free node ids. -/
theorem mem_bridgeData (nodes : List Node) (links : List Link)
    (hnodup : (nodes.map Node.id).Nodup) (v : Node) (hv : v ∈ nodes)
    (s : List String) :
    (v.id, s) ∈ bridgeData nodes links ↔
      (v.group ≠ "me" ∧ connectedGroups nodes links v ≠ [] ∧
        s = connectedGroups nodes links v) := by
  rw [bridgeData, bridgeAccum_foldl nodes links nodes [] hnodup
    (fun n _ p hp => absurd hp (List.not_mem_nil p)), List.nil_append,
    List.mem_flatMap]
  constructor
  · rintro ⟨n, hn, hentry⟩
    unfold bridgeEntry at hentry
    split_ifs at hentry with h1 h2
    · cases hentry
    · cases hentry
    · rw [List.mem_singleton, Prod.ext_iff] at hentry
      have : v = n := List.inj_on_of_nodup_map hnodup hv hn hentry.1
      subst this
      refine ⟨h1, fun hnil => h2 ?_, hentry.2⟩
      rw [List.isEmpty_iff]
      exact hnil
  · rintro ⟨hg, hne, rfl⟩
    refine ⟨v, hv, ?_⟩
    unfold bridgeEntry
    rw [if_neg hg, if_neg (by rw [List.isEmpty_iff]; exact hne)]
    exact List.mem_singleton.mpr rfl

/-- C1: in a snapshot with duplicate-free node ids in which exactly one node
carries the reserved `'me'` group, for every non-self node `v` the bridge
computation collects exactly the groups `g` distinct from `v`'s own group
and from the self group that are reachable from `v` by a direct link, each
endpoint being computed independently; and `v` appears in the bridge map
(with its group set) precisely when that set is non-empty. -/
theorem bridgesOf_spec (nodes : List Node) (links : List Link) (v : Node)
    (hme : (nodes.filter fun n => n.group == "me").length = 1)
    (hnodup : (nodes.map Node.id).Nodup)
    (hv : v ∈ nodes) (hvg : v.group ≠ "me") :
    (∀ g : String, g ∈ connectedGroups nodes links v ↔
      (g ≠ v.group ∧ g ≠ "me" ∧
        ∃ l ∈ links, ∃ u ∈ nodes, u.group = g ∧ l.joins v u)) ∧
    ((∃ s, (v.id, s) ∈ bridgeData nodes links) ↔
      connectedGroups nodes links v ≠ []) ∧
    (∀ s, (v.id, s) ∈ bridgeData nodes links →
      s = connectedGroups nodes links v) := by
  refine ⟨?_, ?_, ?_⟩
  · intro g
    rw [connectedGroups, mem_bridgeStep_foldl]
    simp only [List.not_mem_nil, false_or]
    constructor
    · rintro ⟨l, hl, hgme, hgv, hbranch⟩
      rcases hbranch with ⟨hsrc, u, hfind, hug⟩ | ⟨hns, htgt, u, hfind, hug⟩
      · obtain ⟨humem, hres⟩ := (findNodeByEnd_eq_some nodes hnodup l.target u).mp hfind
        exact ⟨hgv, hgme, l, hl, u, humem, hug, Or.inl ⟨hsrc, hres⟩⟩
      · obtain ⟨humem, hres⟩ := (findNodeByEnd_eq_some nodes hnodup l.source u).mp hfind
        exact ⟨hgv, hgme, l, hl, u, humem, hug, Or.inr ⟨hres, htgt⟩⟩
    · rintro ⟨hgv, hgme, l, hl, u, humem, hug, hjoins⟩
      refine ⟨l, hl, hgme, hgv, ?_⟩
      rcases hjoins with ⟨hs, ht⟩ | ⟨hs, ht⟩
      · exact Or.inl ⟨hs, u,
          (findNodeByEnd_eq_some nodes hnodup l.target u).mpr ⟨humem, ht⟩, hug⟩
      · by_cases hsv : l.source.resolveId = some v.id
        · have huv : u.id = v.id := by
            rw [hs] at hsv
            exact Option.some_injective String hsv
          have : u = v := List.inj_on_of_nodup_map hnodup humem hv huv
          subst this
          exact absurd (hug ▸ rfl) hgv
        · exact Or.inr ⟨hsv, ht, u,
            (findNodeByEnd_eq_some nodes hnodup l.source u).mpr ⟨humem, hs⟩, hug⟩
  · constructor
    · rintro ⟨s, hs⟩
      exact ((mem_bridgeData nodes links hnodup v hv s).mp hs).2.1
    · intro hne
      exact ⟨connectedGroups nodes links v,
        (mem_bridgeData nodes links hnodup v hv _).mpr ⟨hvg, hne, rfl⟩⟩
  · intro s hs
    exact ((mem_bridgeData nodes links hnodup v hv s).mp hs).2.2

/-- The spec's bridge-detection example: self plus A in `group1`, B in
`group2`, C in `group1`, with links A–B and A–C. -/
def exNodes : List Node :=
  [{ id := "me", name := "Me", group := "me" },
   { id := "A", name := "A", group := "group1" },
   { id := "B", name := "B", group := "group2" },
   { id := "C", name := "C", group := "group1" }]

/-- The links of the bridge-detection example. -/
def exLinks : List Link :=
  [{ source := .bare "A", target := .bare "B", strength := 5 },
   { source := .bare "A", target := .bare "C", strength := 5 }]

/-- The node A of the bridge-detection example. -/
def exA : Node := { id := "A", name := "A", group := "group1" }

/-- C1 witness: the spec's example discharges all hypotheses, and the bridge
map is exactly A with foreign-group set `{group2}` and B with `{group1}`,
with C not a bridge. -/
theorem bridgesOf_spec_witness :
    ((∀ g : String, g ∈ connectedGroups exNodes exLinks exA ↔
      (g ≠ exA.group ∧ g ≠ "me" ∧
        ∃ l ∈ exLinks, ∃ u ∈ exNodes, u.group = g ∧ l.joins exA u)) ∧
     ((∃ s, (exA.id, s) ∈ bridgeData exNodes exLinks) ↔
       connectedGroups exNodes exLinks exA ≠ []) ∧
     (∀ s, (exA.id, s) ∈ bridgeData exNodes exLinks →
       s = connectedGroups exNodes exLinks exA)) ∧
    bridgeData exNodes exLinks = [("A", ["group2"]), ("B", ["group1"])] :=
  ⟨bridgesOf_spec exNodes exLinks exA (by decide) (by decide) (by decide)
    (by decide), by decide⟩

/-- Two stored links connect the same unordered pair of person ids when some
pair of ids matches both (in either orientation each). -/
def Link.samePair (l m : Link) : Prop :=
  ∃ a b : String, l.matchesPair a b = true ∧ m.matchesPair a b = true

/-- Decidable form of `Link.samePair`: both endpoints of `l` resolve to ids
and the resolved endpoint pair of `m` equals it up to orientation. -/
def Link.samePairB (l m : Link) : Bool :=
  l.source.resolveId.isSome && l.target.resolveId.isSome &&
  ((l.source.resolveId == m.source.resolveId &&
    l.target.resolveId == m.target.resolveId) ||
   (l.source.resolveId == m.target.resolveId &&
    l.target.resolveId == m.source.resolveId))

/-- Helper: the two forms of the same-unordered-pair relation agree. -/
theorem samePair_iff (l m : Link) : l.samePair m ↔ l.samePairB m = true := by
  unfold Link.samePair Link.samePairB Link.matchesPair Endpoint.isId
  simp only [Bool.or_eq_true, Bool.and_eq_true, decide_eq_true_eq,
    beq_iff_eq, Option.isSome_iff_exists]
  constructor
  · rintro ⟨a, b, (⟨h1, h2⟩ | ⟨h1, h2⟩), (⟨h3, h4⟩ | ⟨h3, h4⟩)⟩
    · exact ⟨⟨⟨a, h1⟩, ⟨b, h2⟩⟩, Or.inl ⟨h1.trans h3.symm, h2.trans h4.symm⟩⟩
    · exact ⟨⟨⟨a, h1⟩, ⟨b, h2⟩⟩, Or.inr ⟨h1.trans h4.symm, h2.trans h3.symm⟩⟩
    · exact ⟨⟨⟨b, h1⟩, ⟨a, h2⟩⟩, Or.inr ⟨h1.trans h4.symm, h2.trans h3.symm⟩⟩
    · exact ⟨⟨⟨b, h1⟩, ⟨a, h2⟩⟩, Or.inl ⟨h1.trans h3.symm, h2.trans h4.symm⟩⟩
  · rintro ⟨⟨⟨a, ha⟩, ⟨b, hb⟩⟩, hd | hd⟩
    · exact ⟨a, b, Or.inl ⟨ha, hb⟩,
        Or.inl ⟨hd.1.symm.trans ha, hd.2.symm.trans hb⟩⟩
    · exact ⟨a, b, Or.inl ⟨ha, hb⟩,
        Or.inr ⟨hd.2.symm.trans hb, hd.1.symm.trans ha⟩⟩

/-- Helper: the unordered-pair test is orientation-insensitive. -/
theorem matchesPair_comm (l : Link) (a b : String) :
    l.matchesPair a b = l.matchesPair b a := by
  simp [Link.matchesPair, Bool.or_comm]

/-- Helper: a link matching a pair mentions the second id at an endpoint. -/
theorem mentions_of_matches (l : Link) (a b : String)
    (h : l.matchesPair a b = true) :
    l.source.resolveId = some b ∨ l.target.resolveId = some b := by
  simp only [Link.matchesPair, Endpoint.isId, Bool.or_eq_true,
    Bool.and_eq_true, decide_eq_true_eq] at h
  rcases h with ⟨_, ht⟩ | ⟨hs, _⟩
  · exact Or.inr ht
  · exact Or.inl hs

/-- Helper: which pairs a bare-endpoint link matches. -/
theorem bare_matches (s t a b : String) (k : Int) (e : String)
    (h : Link.matchesPair
      { source := .bare s, target := .bare t, strength := k, extra := e }
      a b = true) :
    (s = a ∧ t = b) ∨ (s = b ∧ t = a) := by
  simpa [Link.matchesPair, Endpoint.isId, Endpoint.resolveId] using h

/-- Helper: a link that does not match a pair shares no unordered pair with
the bare link over that pair. -/
theorem not_samePair_bare (l : Link) (s t : String) (k : Int) (e : String)
    (h : l.matchesPair s t = false) :
    ¬ l.samePair
      { source := .bare s, target := .bare t, strength := k, extra := e } := by
  rintro ⟨a, b, hl, hnew⟩
  rcases bare_matches s t a b k e hnew with ⟨rfl, rfl⟩ | ⟨rfl, rfl⟩
  · rw [hl] at h
    cases h
  · rw [matchesPair_comm] at hl
    rw [hl] at h
    cases h

/-- No two links of a list connect the same unordered pair of person ids. -/
def NoDupPairs (links : List Link) : Prop :=
  links.Pairwise fun l m => ¬ l.samePair m

/-- The sample data shipped with the app (`initialData.js`): 15 nodes
including the self node. -/
def initialNodes : List Node :=
  [{ id := "me", name := "Me", group := "me",
     details := "The center of my social universe" },
   { id := "mom", name := "Mom", group := "family",
     details := "Always supportive, calls every Sunday" },
   { id := "dad", name := "Dad", group := "family",
     details := "Wise advice, loves hiking" },
   { id := "sister", name := "Sarah", group := "family",
     details := "Younger sister, lives in Berlin" },
   { id := "brother", name := "Max", group := "family",
     details := "Older brother, software engineer" },
   { id := "boss", name := "Thomas", group := "work",
     details := "Team lead, very organized" },
   { id := "colleague1", name := "Anna", group := "work",
     details := "Desk neighbor, coffee buddy" },
   { id := "colleague2", name := "Michael", group := "work",
     details := "Backend developer, chess enthusiast" },
   { id := "colleague3", name := "Lisa", group := "work",
     details := "Designer, great at presentations" },
   { id := "bestfriend", name := "Chris", group := "friends",
     details := "Best friend since university, knows everything" },
   { id := "friend1", name := "Julia", group := "friends",
     details := "Met at yoga class, very positive energy" },
   { id := "friend2", name := "David", group := "friends",
     details := "Gaming buddy, works in finance" },
   { id := "friend3", name := "Emma", group := "friends",
     details := "Book club friend, recommends great reads" },
   { id := "neighbor", name := "Mr. Schmidt", group := "acquaintances",
     details := "Friendly neighbor, waters plants when away" },
   { id := "gym", name := "Fitness Tom", group := "acquaintances",
     details := "See at the gym, good workout tips" }]

/-- The sample links shipped with the app (`initialData.js`). -/
def initialLinks : List Link :=
  [{ source := .bare "me", target := .bare "mom", strength := 9 },
   { source := .bare "me", target := .bare "dad", strength := 8 },
   { source := .bare "me", target := .bare "sister", strength := 8 },
   { source := .bare "me", target := .bare "brother", strength := 7 },
   { source := .bare "mom", target := .bare "dad", strength := 10 },
   { source := .bare "sister", target := .bare "brother", strength := 6 },
   { source := .bare "mom", target := .bare "sister", strength := 8 },
   { source := .bare "mom", target := .bare "brother", strength := 8 },
   { source := .bare "dad", target := .bare "sister", strength := 7 },
   { source := .bare "dad", target := .bare "brother", strength := 7 },
   { source := .bare "me", target := .bare "boss", strength := 5 },
   { source := .bare "me", target := .bare "colleague1", strength := 6 },
   { source := .bare "me", target := .bare "colleague2", strength := 5 },
   { source := .bare "me", target := .bare "colleague3", strength := 4 },
   { source := .bare "boss", target := .bare "colleague1", strength := 4 },
   { source := .bare "boss", target := .bare "colleague2", strength := 4 },
   { source := .bare "boss", target := .bare "colleague3", strength := 4 },
   { source := .bare "colleague1", target := .bare "colleague2", strength := 5 },
   { source := .bare "colleague1", target := .bare "colleague3", strength := 6 },
   { source := .bare "me", target := .bare "bestfriend", strength := 10 },
   { source := .bare "me", target := .bare "friend1", strength := 6 },
   { source := .bare "me", target := .bare "friend2", strength := 7 },
   { source := .bare "me", target := .bare "friend3", strength := 5 },
   { source := .bare "bestfriend", target := .bare "friend2", strength := 4 },
   { source := .bare "friend1", target := .bare "friend3", strength := 3 },
   { source := .bare "me", target := .bare "neighbor", strength := 2 },
   { source := .bare "me", target := .bare "gym", strength := 2 },
   { source := .bare "brother", target := .bare "colleague2", strength := 3 },
   { source := .bare "bestfriend", target := .bare "sister", strength := 4 }]

/-- The sample state loaded on first use without an account. -/
def initialState : NetworkState :=
  { nodes := initialNodes, links := initialLinks }

/-- The states reachable through the hook's mutation operations from the
fresh-account state or the sample data; the generated ids consumed by
`bulkAddPeople` (`person-${Date.now()}-${random}`) are modelled by the
hypotheses that they are pairwise distinct and fresh for the stored links. -/
inductive Reachable : NetworkState → Prop where
  | init_fresh : Reachable defaultState
  | init_sample : Reachable initialState
  | add_person (p : Node) (st : NetworkState) :
      Reachable st → Reachable (addPerson p st)
  | update_person (id : String) (u : PersonUpdates) (st : NetworkState) :
      Reachable st → Reachable (updatePerson id u st)
  | delete_person (id : String) (st : NetworkState) :
      Reachable st → Reachable (deletePerson id st)
  | add_link (source target : String) (k : Int) (st : NetworkState) :
      Reachable st → Reachable (addLink st source target k).2
  | update_link (source target : String) (k : Int) (st : NetworkState) :
      Reachable st → Reachable (updateLink source target k st)
  | delete_link (source target : String) (st : NetworkState) :
      Reachable st → Reachable (deleteLink source target st)
  | bulk_add (entries : List (String × String)) (group : String)
      (ctm : Bool) (cs : Option Int) (st : NetworkState) :
      Reachable st →
      (entries.map Prod.fst).Nodup →
      (∀ i ∈ entries.map Prod.fst, ∀ l ∈ st.links,
        l.source.resolveId ≠ some i ∧ l.target.resolveId ≠ some i) →
      Reachable (bulkAddPeople entries group ctm cs st)
  | reset (st : NetworkState) : Reachable st → Reachable initialState

/-- Helper: the sample links connect pairwise-distinct unordered pairs. -/
theorem initialLinks_noDupPairs : NoDupPairs initialLinks := by
  have hb : initialLinks.Pairwise (fun l m => l.samePairB m = false) := by
    decide
  exact hb.imp fun h hs => by
    rw [samePair_iff] at hs
    rw [hs] at h
    cases h

/-- Helper: every reachable state has pairwise-distinct link pairs. -/
theorem reachable_noDupPairs (st : NetworkState) (h : Reachable st) :
    NoDupPairs st.links := by
  induction h with
  | init_fresh => exact List.Pairwise.nil
  | init_sample => exact initialLinks_noDupPairs
  | add_person p st _ ih => exact ih
  | update_person id u st _ ih => exact ih
  | delete_person id st _ ih =>
    unfold deletePerson
    split_ifs
    · exact ih
    · exact List.Pairwise.sublist (List.filter_sublist st.links) ih
  | add_link source target k st _ ih =>
    unfold addLink
    by_cases hex : st.links.any fun l => l.matchesPair source target
    · rw [if_pos hex]
      exact ih
    · rw [if_neg hex]
      rw [Bool.not_eq_true, List.any_eq_false] at hex
      refine List.pairwise_append.mpr ⟨ih, List.pairwise_singleton _ _, ?_⟩
      intro l hl m hm
      rw [List.mem_singleton] at hm
      subst hm
      have hfalse : l.matchesPair source target = false := by
        have := hex l hl
        simpa using this
      exact not_samePair_bare l source target k "" hfalse
  | update_link source target k st _ ih =>
    unfold updateLink NoDupPairs
    dsimp only
    rw [List.pairwise_map]
    refine ih.imp ?_
    intro a b hab hsame
    apply hab
    obtain ⟨x, y, h1, h2⟩ := hsame
    have ha : ∀ z : Link, ∀ p q : String,
        Link.matchesPair
          (if z.matchesPair source target then { z with strength := k } else z)
          p q = z.matchesPair p q := by
      intro z p q
      by_cases hz : z.matchesPair source target <;> simp [hz] <;> rfl
    rw [ha] at h1
    rw [ha] at h2
    exact ⟨x, y, h1, h2⟩
  | delete_link source target st _ ih =>
    unfold deleteLink
    exact List.Pairwise.sublist (List.filter_sublist st.links) ih
  | bulk_add entries group ctm cs st _ hids hfresh ih =>
    unfold bulkAddPeople
    refine List.pairwise_append.mpr ⟨ih, ?_, ?_⟩
    · by_cases hc : ctm
      · rw [if_pos hc, List.pairwise_map]
        have hpw : entries.Pairwise fun e1 e2 => e1.1 ≠ e2.1 := by
          have := hids
          rw [List.Nodup, List.pairwise_map] at this
          exact this
        refine hpw.imp ?_
        intro e1 e2 hne hsame
        apply hne
        obtain ⟨a, b, h1, h2⟩ := hsame
        rcases bare_matches "me" e1.1 a b _ "" h1 with ⟨hma, hib⟩ | ⟨hmb, hia⟩
        · rcases bare_matches "me" e2.1 a b _ "" h2 with ⟨_, hib2⟩ | ⟨hmb2, hia2⟩
          · exact (hib.trans hib2.symm)
          · exact hib.trans (hmb2.symm.trans (hma.trans hia2.symm))
        · rcases bare_matches "me" e2.1 a b _ "" h2 with ⟨hma2, hib2⟩ | ⟨_, hia2⟩
          · exact hia.trans (hma2.symm.trans (hmb.trans hib2.symm))
          · exact (hia.trans hia2.symm)
      · rw [if_neg hc]
        exact List.Pairwise.nil
    · intro l hl m hm
      by_cases hc : ctm
      · rw [if_pos hc, List.mem_map] at hm
        obtain ⟨e, he, rfl⟩ := hm
        rintro ⟨a, b, hla, hmb⟩
        have hmem := hfresh e.1 (List.mem_map_of_mem Prod.fst he) l hl
        rcases bare_matches "me" e.1 a b _ "" hmb with ⟨rfl, rfl⟩ | ⟨rfl, rfl⟩
        · rcases mentions_of_matches l "me" e.1 hla with hsrc | htgt
          · exact hmem.1 hsrc
          · exact hmem.2 htgt
        · rw [matchesPair_comm] at hla
          rcases mentions_of_matches l "me" e.1 hla with hsrc | htgt
          · exact hmem.1 hsrc
          · exact hmem.2 htgt
      · rw [if_neg hc] at hm
        cases hm
  | reset st _ _ => exact initialLinks_noDupPairs

/-- C5: adding a link over an unordered pair already stored (in either
orientation, with bare or resolved endpoints) fails in both call
orientations and leaves the state unchanged; consequently every state
reachable through the mutation operations has no two links over the same
unordered pair of person ids. -/
theorem addLink_unique_pairs :
    (∀ (st : NetworkState) (a b : String) (k : Int),
      (∃ l ∈ st.links, l.matchesPair a b = true) →
        addLink st a b k = (false, st) ∧ addLink st b a k = (false, st)) ∧
    (∀ st : NetworkState, Reachable st → NoDupPairs st.links) := by
  constructor
  · intro st a b k hex
    constructor
    · unfold addLink
      rw [if_pos (List.any_eq_true.mpr hex)]
    · unfold addLink
      rw [if_pos (List.any_eq_true.mpr ?_)]
      obtain ⟨l, hl, hm⟩ := hex
      exact ⟨l, hl, by rwa [matchesPair_comm]⟩
  · exact reachable_noDupPairs

/-- C5 witness: on the sample state, re-adding the stored `me`–`dad` link
fails in both orientations, and the fresh-account state is reachable with
duplicate-free link pairs. -/
theorem addLink_unique_pairs_witness :
    (addLink sampleState "me" "dad" 5 = (false, sampleState) ∧
      addLink sampleState "dad" "me" 5 = (false, sampleState)) ∧
    NoDupPairs defaultState.links :=
  ⟨addLink_unique_pairs.1 sampleState "me" "dad" 5 (by decide),
   addLink_unique_pairs.2 defaultState Reachable.init_fresh⟩

end SocialNetwork
